import Mathlib

/-!
Shallow embedding of three Linux hwrng drivers:
  * TX4939 RNG        (tx4939-rng.c,  64-bit words, 3 output registers/cycle)
  * Freescale RNGA    (mxc-rnga.c,    32-bit words, status-reported FIFO level)
  * ath9k ADC noise   (rng.c,         32-bit words packed from 16-bit ADC pairs)

Hardware is modelled by oracles: a status register read returns the next value
of a sequence indexed by how many times that register has been read during the
call; FIFO / ADC reads are likewise consuming sequences.  Every register access
and every retry delay is recorded in an event trace, so that claims about
"no hardware access", "re-arms once", or "at most 20 re-checks" are statements
about the trace.  Return values keep the C convention: a negative Int is an
error code (-22 = -EINVAL, -5 = -EIO), a non-negative Int is a byte count.
-/

namespace HwRng

/-! ## TX4939 -/

/-- TX4939_RNG_RCSR_ST (start/busy bit of the control and status register). -/
def TX4939_RNG_RCSR_ST : Nat := 1

/-- TX4939_RNG_RCSR_RST (reset bit). -/
def TX4939_RNG_RCSR_RST : Nat := 4

/-- Hardware access events of the TX4939 driver. -/
inductive TxEvent where
  | readRCSR (v : Nat)
  | readROR (i : Nat) (v : Nat)
  | writeRCSR (v : Nat)
  | delay
deriving DecidableEq

/-- Device oracle: `rcsrSeq j` is the value returned by the j-th read of the
RCSR register; `ror i` is the content of output register ROR(i). -/
structure TxState where
  rcsrSeq : Nat → Nat
  ror : Nat → Nat

/-- `present = !(read_rng(base, TX4939_RNG_RCSR) & TX4939_RNG_RCSR_ST)`. -/
def txPresent (v : Nat) : Bool := v &&& TX4939_RNG_RCSR_ST == 0

/-- Result of the poll loop: final `present`, next RCSR read index, events. -/
structure TxPollRes where
  present : Bool
  next : Nat
  evs : List TxEvent
deriving DecidableEq

/-- `while (wait && !present && retries--) { ndelay(..); present = ...; }`
with `retries` as fuel and `idx` the index of the next RCSR read. -/
def txPoll (seq : Nat → Nat) (wait : Bool) : Nat → Nat → Bool → TxPollRes
  | 0, idx, present => ⟨present, idx, []⟩
  | r + 1, idx, present =>
    if wait && !present then
      let q := txPoll seq wait r (idx + 1) (txPresent (seq idx))
      ⟨q.present, q.next, TxEvent.delay :: TxEvent.readRCSR (seq idx) :: q.evs⟩
    else ⟨present, idx, []⟩

/-- Result of one `tx4939_rng_read` call: C return value, index of the next
RCSR read (so successive calls of the probe thread the oracle), the words
stored into the caller's buffer (in index order), and the event trace. -/
structure TxRead where
  ret : Int
  next : Nat
  outBuf : List Nat
  trace : List TxEvent
deriving DecidableEq

/-- `tx4939_rng_read`, starting at RCSR-read index `sIdx`. -/
def tx4939_rng_read_at (st : TxState) (sIdx : Nat) (max : Nat) (wait : Bool) :
    TxRead :=
  if max < 8 then ⟨-22, sIdx, [], []⟩
  else
    let pr := txPoll st.rcsrSeq wait 20 (sIdx + 1) (txPresent (st.rcsrSeq sIdx))
    let tr := TxEvent.readRCSR (st.rcsrSeq sIdx) :: pr.evs
    if pr.present = false then ⟨0, pr.next, [], tr⟩
    else
      let n := min 3 (max / 8)
      ⟨((n * 8 : Nat) : Int), pr.next, (List.range n).map st.ror,
        tr ++ (List.range n).map (fun i => TxEvent.readROR i (st.ror i)) ++
          [TxEvent.writeRCSR TX4939_RNG_RCSR_ST]⟩

/-- `tx4939_rng_read` as the framework calls it (fresh oracle). -/
def tx4939_rng_read (st : TxState) (max : Nat) (wait : Bool) : TxRead :=
  tx4939_rng_read_at st 0 max wait

/-- Result of `tx4939_rng_probe`'s hardware-facing part. -/
structure TxProbe where
  ret : Int
  registered : Bool
  trace : List TxEvent
deriving DecidableEq

/-- `tx4939_rng_probe`, the hardware-facing part: reset/start writes, then two
discard reads (`flush` is `u64 flush[3]`, so `sizeof(flush) = 24`, `wait = 1`);
a zero-byte discard read aborts with -EIO before registration.  Allocation and
ioremap glue of the host driver model is outside the embedding. -/
def tx4939_rng_probe (st : TxState) : TxProbe :=
  let initEvs := [TxEvent.writeRCSR TX4939_RNG_RCSR_RST, TxEvent.writeRCSR 0,
    TxEvent.writeRCSR TX4939_RNG_RCSR_ST]
  let r1 := tx4939_rng_read_at st 0 24 true
  if r1.ret = 0 then ⟨-5, false, initEvs ++ r1.trace⟩
  else
    let r2 := tx4939_rng_read_at st r1.next 24 true
    if r2.ret = 0 then ⟨-5, false, initEvs ++ r1.trace ++ r2.trace⟩
    else ⟨0, true, initEvs ++ r1.trace ++ r2.trace⟩

/-! ## Freescale RNGA -/

/-- RNGA_STATUS_LEVEL_MASK. -/
def RNGA_STATUS_LEVEL_MASK : Nat := 0xff00

/-- RNGA_STATUS_ERROR_INT. -/
def RNGA_STATUS_ERROR_INT : Nat := 8

/-- RNGA_CONTROL_CLEAR_INT. -/
def RNGA_CONTROL_CLEAR_INT : Nat := 8

/-- Hardware access events of the RNGA driver. -/
inductive RngaEvent where
  | readStatus (v : Nat)
  | readFifo (v : Nat)
  | readControl (v : Nat)
  | writeControl (v : Nat)
  | delay
deriving DecidableEq

/-- Device oracle: `statusSeq j` is the value of the j-th RNGA_STATUS read,
`fifoSeq j` the j-th word popped from RNGA_OUTPUT_FIFO, `ctrl` the current
RNGA_CONTROL content. -/
structure RngaState where
  statusSeq : Nat → Nat
  fifoSeq : Nat → Nat
  ctrl : Nat

/-- Result of the RNGA poll loop: final `present` (masked level field),
next status read index, events. -/
structure RngaPollRes where
  present : Nat
  next : Nat
  evs : List RngaEvent
deriving DecidableEq

/-- `while (wait && !present && retries--) { udelay(10); present = status & LEVEL_MASK; }`. -/
def rngaPoll (seq : Nat → Nat) (wait : Bool) : Nat → Nat → Nat → RngaPollRes
  | 0, idx, present => ⟨present, idx, []⟩
  | r + 1, idx, present =>
    if wait && present == 0 then
      let q := rngaPoll seq wait r (idx + 1) (seq idx &&& RNGA_STATUS_LEVEL_MASK)
      ⟨q.present, q.next, RngaEvent.delay :: RngaEvent.readStatus (seq idx) :: q.evs⟩
    else ⟨present, idx, []⟩

/-- Result of the drain loop: `k` = loop counter `i` at exit (words counted in
the return value), the words stored into the buffer, events, error flag. -/
structure RngaDrainRes where
  k : Nat
  writes : List Nat
  evs : List RngaEvent
  err : Bool
deriving DecidableEq

/-- `for (i = 0; i < max; i++) { out[i] = FIFO; err = STATUS & ERROR_INT;
if (err) goto err_clear; }` — on error the word was already stored but `i`
was not incremented. `fuel` is the remaining iteration count, `sIdx`/`fIdx`
the next status/FIFO oracle indices. -/
def rngaDrain (st : RngaState) : Nat → Nat → Nat → RngaDrainRes
  | 0, _, _ => ⟨0, [], [], false⟩
  | fuel + 1, sIdx, fIdx =>
    let w := st.fifoSeq fIdx
    let sv := st.statusSeq sIdx
    if sv &&& RNGA_STATUS_ERROR_INT != 0 then
      ⟨0, [w], [RngaEvent.readFifo w, RngaEvent.readStatus sv], true⟩
    else
      let q := rngaDrain st fuel (sIdx + 1) (fIdx + 1)
      ⟨q.k + 1, w :: q.writes,
        RngaEvent.readFifo w :: RngaEvent.readStatus sv :: q.evs, q.err⟩

/-- Result of one `mxc_rnga_read` call. -/
structure RngaRead where
  ret : Int
  outBuf : List Nat
  trace : List RngaEvent
deriving DecidableEq

/-- `mxc_rnga_read`. -/
def mxc_rnga_read (st : RngaState) (max : Nat) (wait : Bool) : RngaRead :=
  if max < 4 then ⟨-22, [], []⟩
  else
    let pr := rngaPoll st.statusSeq wait 20 1
      (st.statusSeq 0 &&& RNGA_STATUS_LEVEL_MASK)
    let tr := RngaEvent.readStatus (st.statusSeq 0) :: pr.evs
    if pr.present = 0 then ⟨0, [], tr⟩
    else
      let n := min (pr.present >>> 8) (max / 4)
      let d := rngaDrain st n pr.next 0
      if d.err then
        ⟨((d.k * 4 : Nat) : Int), d.writes,
          tr ++ d.evs ++ [RngaEvent.readControl st.ctrl,
            RngaEvent.writeControl (st.ctrl ||| RNGA_CONTROL_CLEAR_INT)]⟩
      else ⟨((d.k * 4 : Nat) : Int), d.writes, tr ++ d.evs⟩

/-! ## ath9k ADC-noise RNG -/

/-- Hardware access events of the ath9k rng; `cfgWrite` stands for the three
observation-select register writes at the head of `ath9k_rng_data_read`. -/
inductive AthEvent where
  | cfgWrite
  | readADC (v : Nat)
  | delay
deriving DecidableEq

/-- Device oracle: `adc j` is the value of the j-th AR_PHY_TST_ADC read
(the code masks it with 0xffff itself); `rng_last` is the persisted
previous-sample word of the softc. -/
structure AthState where
  adc : Nat → Nat
  rng_last : Nat

/-- The sample-pair validity test of `ath9k_rng_data_read`:
`v1 && v2 && rng_last != v1 && v1 != v2 && v1 != 0xffff && v2 != 0xffff`. -/
def ath9k_pair_ok (last v1 v2 : Nat) : Bool :=
  v1 != 0 && v2 != 0 && last != v1 && v1 != v2 && v1 != 0xffff && v2 != 0xffff

/-- Result of the ADC scan loop: packed words (in buffer order), final
`rng_last`, next ADC read index, events. -/
structure AthScanRes where
  ws : List Nat
  last : Nat
  next : Nat
  evs : List AthEvent
deriving DecidableEq

/-- The `for (i = 0, j = 0; i < buf_size; i++)` scan: two ADC reads per
iteration, a packed word `(v1 << 16) | v2` output when the pair passes
`ath9k_pair_ok`, and `rng_last = v2` after every pair. -/
def ath9k_scan (adc : Nat → Nat) : Nat → Nat → Nat → AthScanRes
  | 0, aIdx, last => ⟨[], last, aIdx, []⟩
  | m + 1, aIdx, last =>
    let v1 := adc aIdx &&& 0xffff
    let v2 := adc (aIdx + 1) &&& 0xffff
    let q := ath9k_scan adc m (aIdx + 2) v2
    let evs := AthEvent.readADC (adc aIdx) ::
      AthEvent.readADC (adc (aIdx + 1)) :: q.evs
    if ath9k_pair_ok last v1 v2 then
      ⟨(v1 <<< 16 ||| v2) :: q.ws, q.last, q.next, evs⟩
    else ⟨q.ws, q.last, q.next, evs⟩

/-- `ath9k_rng_data_read sc buf buf_size`: configures the observation mux,
then scans `buf_size` sample pairs. -/
def ath9k_rng_data_read (adc : Nat → Nat) (aIdx last bufSize : Nat) :
    AthScanRes :=
  let q := ath9k_scan adc bufSize aIdx last
  ⟨q.ws, q.last, q.next, AthEvent.cfgWrite :: q.evs⟩

/-- `while (wait && !u32s_read && retries--) { udelay(10); u32s_read = ...; }`
threading the accumulated scan result (buffer words, rng_last, ADC index,
trace) through the retries. -/
def athRetry (adc : Nat → Nat) (bufWords : Nat) (wait : Bool) :
    Nat → AthScanRes → AthScanRes
  | 0, acc => acc
  | r + 1, acc =>
    if wait && acc.ws.isEmpty then
      let q := ath9k_rng_data_read adc acc.next acc.last bufWords
      athRetry adc bufWords wait r
        ⟨q.ws, q.last, q.next, acc.evs ++ AthEvent.delay :: q.evs⟩
    else acc

/-- Result of one `ath9k_rng_read` call; `rng_last` is the persisted scratch
state written back into the softc. -/
structure AthRead where
  ret : Int
  outBuf : List Nat
  rng_last : Nat
  trace : List AthEvent
deriving DecidableEq

/-- `ath9k_rng_read`. -/
def ath9k_rng_read (st : AthState) (max : Nat) (wait : Bool) : AthRead :=
  if max < 4 then ⟨-22, [], st.rng_last, []⟩
  else
    let r0 := ath9k_rng_data_read st.adc 0 st.rng_last (max / 4)
    let q := athRetry st.adc (max / 4) wait 20 r0
    ⟨((q.ws.length * 4 : Nat) : Int), q.ws, q.last, q.evs⟩

/-! ## Event classifiers (for counting hardware accesses in traces) -/

/-- Is this event a RCSR status read? -/
def TxEvent.isReadRCSR : TxEvent → Bool
  | .readRCSR _ => true
  | _ => false

/-- Is this event a RCSR write? -/
def TxEvent.isWriteRCSR : TxEvent → Bool
  | .writeRCSR _ => true
  | _ => false

/-- Is this event a retry delay? -/
def TxEvent.isDelay : TxEvent → Bool
  | .delay => true
  | _ => false

/-- Is this event a STATUS read? -/
def RngaEvent.isReadStatus : RngaEvent → Bool
  | .readStatus _ => true
  | _ => false

/-- Is this event a FIFO pop? -/
def RngaEvent.isReadFifo : RngaEvent → Bool
  | .readFifo _ => true
  | _ => false

/-- Is this event a CONTROL write? -/
def RngaEvent.isWriteControl : RngaEvent → Bool
  | .writeControl _ => true
  | _ => false

/-- Is this event a retry delay? -/
def RngaEvent.isDelay : RngaEvent → Bool
  | .delay => true
  | _ => false

/-- Is this event a retry delay? -/
def AthEvent.isDelay : AthEvent → Bool
  | .delay => true
  | _ => false

/-! ## Trace shapes and result abbreviations used in claim statements -/

/-- The poll loop of `tx4939_rng_read` as invoked by the call (initial check
already done at RCSR-read index `sIdx`, retry fuel 20). -/
def txPollAt (st : TxState) (wait : Bool) (sIdx : Nat) : TxPollRes :=
  txPoll st.rcsrSeq wait 20 (sIdx + 1) (txPresent (st.rcsrSeq sIdx))

/-- Final value of `present` after the TX4939 poll loop of a fresh call. -/
def txFinalPresent (st : TxState) (wait : Bool) : Bool :=
  (txPollAt st wait 0).present

/-- The poll loop of `mxc_rnga_read` as invoked by the call. -/
def rngaPollAt (st : RngaState) (wait : Bool) : RngaPollRes :=
  rngaPoll st.statusSeq wait 20 1 (st.statusSeq 0 &&& RNGA_STATUS_LEVEL_MASK)

/-- Final value of `present` (the masked level field) after the RNGA poll. -/
def rngaFinalPresent (st : RngaState) (wait : Bool) : Nat :=
  (rngaPollAt st wait).present

/-- Index of the first STATUS read made by the drain loop (i.e. the number of
STATUS reads consumed by the initial check and the poll loop). -/
def rngaPollNext (st : RngaState) (wait : Bool) : Nat :=
  (rngaPollAt st wait).next

/-- The drain step of `mxc_rnga_read` as invoked by the call: plan
`min(level, max / 4)` words, status reads continuing after the poll, FIFO
reads starting at 0. -/
def rngaDrainAt (st : RngaState) (max : Nat) (wait : Bool) : RngaDrainRes :=
  rngaDrain st (min ((rngaPollAt st wait).present >>> 8) (max / 4))
    (rngaPollAt st wait).next 0

/-- Trace of an exhausted poll: `r` rounds of delay-then-status-read starting
at RCSR-read index `idx`, none of which sees the device ready. -/
def txStallTrace (seq : Nat → Nat) (idx : Nat) : Nat → List TxEvent
  | 0 => []
  | r + 1 => TxEvent.delay :: TxEvent.readRCSR (seq idx) ::
      txStallTrace seq (idx + 1) r

/-- Trace of an exhausted RNGA poll. -/
def rngaStallTrace (seq : Nat → Nat) (idx : Nat) : Nat → List RngaEvent
  | 0 => []
  | r + 1 => RngaEvent.delay :: RngaEvent.readStatus (seq idx) ::
      rngaStallTrace seq (idx + 1) r

/-- Trace of a fault-free drain of `n` words starting at status index `sIdx`
and FIFO index `fIdx`. -/
def rngaCleanEvs (st : RngaState) (sIdx fIdx : Nat) : Nat → List RngaEvent
  | 0 => []
  | n + 1 => RngaEvent.readFifo (st.fifoSeq fIdx) ::
      RngaEvent.readStatus (st.statusSeq sIdx) ::
      rngaCleanEvs st (sIdx + 1) (fIdx + 1) n

/-- Trace of a drain that hits the latched error bit on the status check
after the word at index `k` (so `k + 1` FIFO pops and `k + 1` status reads). -/
def rngaErrEvs (st : RngaState) (sIdx fIdx : Nat) : Nat → List RngaEvent
  | 0 => [RngaEvent.readFifo (st.fifoSeq fIdx),
      RngaEvent.readStatus (st.statusSeq sIdx)]
  | k + 1 => RngaEvent.readFifo (st.fifoSeq fIdx) ::
      RngaEvent.readStatus (st.statusSeq sIdx) ::
      rngaErrEvs st (sIdx + 1) (fIdx + 1) k

/-- Spec-side description of the ath9k scan output: among the `m` sample
pairs `(adc (aIdx+2t) & 0xffff, adc (aIdx+2t+1) & 0xffff)`, keep exactly
those whose halves are nonzero, not 0xffff, mutually distinct, and whose
first half differs from the immediately preceding raw sample (`last` for the
first pair, the second half of the previous pair afterwards), packing each
kept pair as `(v1 <<< 16) ||| v2`. -/
def ath9kSpecAt (adc : Nat → Nat) (aIdx last t : Nat) : Option Nat :=
  let v1 := adc (aIdx + 2 * t) &&& 0xffff
  let v2 := adc (aIdx + 2 * t + 1) &&& 0xffff
  let prev := if t = 0 then last else adc (aIdx + 2 * t - 1) &&& 0xffff
  if v1 ≠ 0 ∧ v2 ≠ 0 ∧ prev ≠ v1 ∧ v1 ≠ v2 ∧ v1 ≠ 0xffff ∧ v2 ≠ 0xffff
  then some (v1 <<< 16 ||| v2) else none

/-- The full spec-side scan output: the kept-and-packed pairs, in order. -/
def ath9kSpecWords (adc : Nat → Nat) (aIdx last m : Nat) : List Nat :=
  (List.range m).filterMap (ath9kSpecAt adc aIdx last)

/-! ## Concrete device oracles for witnesses and scenarios -/

/-- TX4939 that is always ready (RCSR start bit clear), ROR(i) = i. -/
def txReadyState : TxState := ⟨fun _ => 0, fun i => i⟩

/-- TX4939 that is never ready (RCSR start bit always set). -/
def txStallState : TxState := ⟨fun _ => 1, fun i => i⟩

/-- RNGA reporting FIFO level 5 on the first status read, no error bit,
FIFO word j = j. -/
def rngaLevel5State : RngaState :=
  ⟨fun j => if j = 0 then 0x500 else 0, fun i => i, 0⟩

/-- RNGA whose status level field is always 0 (empty FIFO). -/
def rngaStallState : RngaState := ⟨fun _ => 0, fun i => i, 0⟩

/-- RNGA reporting level 3, with the error-interrupt bit latched on the
status check following the second FIFO word; FIFO word j = 100 + j. -/
def rngaErrState : RngaState :=
  ⟨fun j => if j = 0 then 0x300 else if j = 2 then 8 else 0,
    fun i => 100 + i, 7⟩

/-- ath9k ADC oracle yielding exactly two valid pairs (at scan steps 2 and 6)
among ten scanned pairs; all other samples read zero. -/
def athTwoPairState : AthState :=
  ⟨fun i => if i = 4 then 1 else if i = 5 then 2 else
    if i = 12 then 3 else if i = 13 then 4 else 0, 0⟩

/-- ath9k ADC oracle that only ever reads zero samples (no valid pair). -/
def athZeroState : AthState := ⟨fun _ => 0, 0⟩

/-! ## General list helpers -/

/-- Peeling the first element off a range-indexed map with an offset. -/
theorem range_map_shift {α : Type} (g : Nat → α) (f n : Nat) :
    (List.range (n + 1)).map (fun t => g (f + t)) =
      g f :: (List.range n).map (fun t => g (f + 1 + t)) := by
  rw [List.range_succ_eq_map, List.map_cons, List.map_map]
  refine congrArg₂ _ (by rw [Nat.add_zero]) ?_
  apply List.map_congr_left
  intro a _
  show g (f + (a + 1)) = g (f + 1 + a)
  congr 1
  omega

/-! ## TX4939 poll-loop lemmas -/

theorem txPoll_nowait (seq : Nat → Nat) (r idx : Nat) (p : Bool) :
    txPoll seq false r idx p = ⟨p, idx, []⟩ := by
  cases r <;> simp [txPoll]

theorem txPoll_ready (seq : Nat → Nat) (wait : Bool) (r idx : Nat) :
    txPoll seq wait r idx true = ⟨true, idx, []⟩ := by
  cases r <;> simp [txPoll]

theorem txPoll_stall (seq : Nat → Nat) (h : ∀ j, txPresent (seq j) = false) :
    ∀ r idx, txPoll seq true r idx false =
      ⟨false, idx + r, txStallTrace seq idx r⟩ := by
  intro r
  induction r with
  | zero => intro idx; simp [txPoll, txStallTrace]
  | succ n ih =>
    intro idx
    simp only [txPoll, txStallTrace, h idx, ih (idx + 1), Bool.not_false,
      Bool.and_self, if_true, TxPollRes.mk.injEq, true_and, and_true]
    omega

theorem txPoll_delay_le (seq : Nat → Nat) (wait : Bool) :
    ∀ r idx p, ((txPoll seq wait r idx p).evs.countP TxEvent.isDelay) ≤ r := by
  intro r
  induction r with
  | zero => intro idx p; simp [txPoll]
  | succ n ih =>
    intro idx p
    by_cases hc : (wait && !p) = true
    · have := ih (idx + 1) (txPresent (seq idx))
      simp [txPoll, hc, List.countP_cons, TxEvent.isDelay]
      have := ih (idx + 1) (txPresent (seq idx))
      omega
    · simp [txPoll, hc]

theorem txPoll_evs_mem (seq : Nat → Nat) (wait : Bool) :
    ∀ r idx p e, e ∈ (txPoll seq wait r idx p).evs →
      e = TxEvent.delay ∨ ∃ v, e = TxEvent.readRCSR v := by
  intro r
  induction r with
  | zero => intro idx p e he; simp [txPoll] at he
  | succ n ih =>
    intro idx p e he
    by_cases hc : (wait && !p) = true
    · simp only [txPoll, hc, if_true, List.mem_cons] at he
      rcases he with rfl | rfl | he
      · exact Or.inl rfl
      · exact Or.inr ⟨seq idx, rfl⟩
      · exact ih (idx + 1) (txPresent (seq idx)) e he
    · simp [txPoll, hc] at he

theorem txStallTrace_count_delay (seq : Nat → Nat) :
    ∀ r idx, (txStallTrace seq idx r).countP TxEvent.isDelay = r := by
  intro r
  induction r with
  | zero => intro idx; simp [txStallTrace]
  | succ n ih =>
    intro idx
    simp [txStallTrace, List.countP_cons, TxEvent.isDelay, ih (idx + 1)]

theorem txStallTrace_count_read (seq : Nat → Nat) :
    ∀ r idx, (txStallTrace seq idx r).countP TxEvent.isReadRCSR = r := by
  intro r
  induction r with
  | zero => intro idx; simp [txStallTrace]
  | succ n ih =>
    intro idx
    simp [txStallTrace, List.countP_cons, TxEvent.isReadRCSR, TxEvent.isDelay,
      ih (idx + 1)]

/-! ## Evaluation equation for `tx4939_rng_read_at` -/

theorem tx_read_at_eval (st : TxState) (sIdx max : Nat) (wait : Bool) :
    tx4939_rng_read_at st sIdx max wait =
      if max < 8 then ⟨-22, sIdx, [], []⟩
      else if (txPollAt st wait sIdx).present = false then
        ⟨0, (txPollAt st wait sIdx).next, [],
          TxEvent.readRCSR (st.rcsrSeq sIdx) :: (txPollAt st wait sIdx).evs⟩
      else
        ⟨((min 3 (max / 8) * 8 : Nat) : Int), (txPollAt st wait sIdx).next,
          (List.range (min 3 (max / 8))).map st.ror,
          (TxEvent.readRCSR (st.rcsrSeq sIdx) :: (txPollAt st wait sIdx).evs) ++
            (List.range (min 3 (max / 8))).map
              (fun i => TxEvent.readROR i (st.ror i)) ++
            [TxEvent.writeRCSR TX4939_RNG_RCSR_ST]⟩ := rfl

/-! ## RNGA poll-loop lemmas -/

theorem rngaPoll_nowait (seq : Nat → Nat) (r idx p : Nat) :
    rngaPoll seq false r idx p = ⟨p, idx, []⟩ := by
  cases r <;> simp [rngaPoll]

theorem rngaPoll_ready (seq : Nat → Nat) (wait : Bool) (r idx : Nat) (p : Nat)
    (hp : p ≠ 0) : rngaPoll seq wait r idx p = ⟨p, idx, []⟩ := by
  cases r <;> simp [rngaPoll, hp]

theorem rngaPoll_stall (seq : Nat → Nat)
    (h : ∀ j, seq j &&& RNGA_STATUS_LEVEL_MASK = 0) :
    ∀ r idx, rngaPoll seq true r idx 0 =
      ⟨0, idx + r, rngaStallTrace seq idx r⟩ := by
  intro r
  induction r with
  | zero => intro idx; simp [rngaPoll, rngaStallTrace]
  | succ n ih =>
    intro idx
    simp only [rngaPoll, rngaStallTrace, h idx, ih (idx + 1),
      RngaPollRes.mk.injEq, true_and, and_true]
    simp
    omega

theorem rngaPoll_delay_le (seq : Nat → Nat) (wait : Bool) :
    ∀ r idx p, ((rngaPoll seq wait r idx p).evs.countP RngaEvent.isDelay) ≤ r := by
  intro r
  induction r with
  | zero => intro idx p; simp [rngaPoll]
  | succ n ih =>
    intro idx p
    by_cases hc : (wait && p == 0) = true
    · simp [rngaPoll, hc, List.countP_cons, RngaEvent.isDelay]
      have := ih (idx + 1) (seq idx &&& RNGA_STATUS_LEVEL_MASK)
      omega
    · simp [rngaPoll, hc]

theorem rngaPoll_evs_mem (seq : Nat → Nat) (wait : Bool) :
    ∀ r idx p e, e ∈ (rngaPoll seq wait r idx p).evs →
      e = RngaEvent.delay ∨ ∃ v, e = RngaEvent.readStatus v := by
  intro r
  induction r with
  | zero => intro idx p e he; simp [rngaPoll] at he
  | succ n ih =>
    intro idx p e he
    by_cases hc : (wait && p == 0) = true
    · simp only [rngaPoll, hc, if_true, List.mem_cons] at he
      rcases he with rfl | rfl | he
      · exact Or.inl rfl
      · exact Or.inr ⟨seq idx, rfl⟩
      · exact ih (idx + 1) (seq idx &&& RNGA_STATUS_LEVEL_MASK) e he
    · simp [rngaPoll, hc] at he

theorem rngaStallTrace_count_delay (seq : Nat → Nat) :
    ∀ r idx, (rngaStallTrace seq idx r).countP RngaEvent.isDelay = r := by
  intro r
  induction r with
  | zero => intro idx; simp [rngaStallTrace]
  | succ n ih =>
    intro idx
    simp [rngaStallTrace, List.countP_cons, RngaEvent.isDelay, ih (idx + 1)]

theorem rngaStallTrace_count_read (seq : Nat → Nat) :
    ∀ r idx, (rngaStallTrace seq idx r).countP RngaEvent.isReadStatus = r := by
  intro r
  induction r with
  | zero => intro idx; simp [rngaStallTrace]
  | succ n ih =>
    intro idx
    simp [rngaStallTrace, List.countP_cons, RngaEvent.isReadStatus,
      RngaEvent.isDelay, ih (idx + 1)]

/-! ## RNGA drain lemmas -/

theorem rngaDrain_k_le (st : RngaState) :
    ∀ fuel sIdx fIdx, (rngaDrain st fuel sIdx fIdx).k ≤ fuel := by
  intro fuel
  induction fuel with
  | zero => intro s f; simp [rngaDrain]
  | succ n ih =>
    intro s f
    by_cases hc : (st.statusSeq s &&& RNGA_STATUS_ERROR_INT != 0) = true
    · simp [rngaDrain, hc]
    · simp [rngaDrain, hc]
      have := ih (s + 1) (f + 1)
      omega

theorem rngaDrain_clean (st : RngaState)
    (h : ∀ j, st.statusSeq j &&& RNGA_STATUS_ERROR_INT = 0) :
    ∀ fuel sIdx fIdx, rngaDrain st fuel sIdx fIdx =
      ⟨fuel, (List.range fuel).map (fun t => st.fifoSeq (fIdx + t)),
        rngaCleanEvs st sIdx fIdx fuel, false⟩ := by
  intro fuel
  induction fuel with
  | zero => intro s f; simp [rngaDrain, rngaCleanEvs]
  | succ n ih =>
    intro s f
    have hc : (st.statusSeq s &&& RNGA_STATUS_ERROR_INT != 0) = false := by
      simp [h s]
    rw [range_map_shift]
    simp only [rngaDrain, hc, Bool.false_eq_true, if_false, ih (s + 1) (f + 1),
      rngaCleanEvs]

theorem rngaDrain_err (st : RngaState) :
    ∀ k fuel sIdx fIdx, k < fuel →
      (∀ j, j < k → st.statusSeq (sIdx + j) &&& RNGA_STATUS_ERROR_INT = 0) →
      st.statusSeq (sIdx + k) &&& RNGA_STATUS_ERROR_INT ≠ 0 →
      rngaDrain st fuel sIdx fIdx =
        ⟨k, (List.range (k + 1)).map (fun t => st.fifoSeq (fIdx + t)),
          rngaErrEvs st sIdx fIdx k, true⟩ := by
  intro k
  induction k with
  | zero =>
    intro fuel s f hk hok herr
    obtain ⟨n, rfl⟩ : ∃ n, fuel = n + 1 := ⟨fuel - 1, by omega⟩
    have hc : (st.statusSeq s &&& RNGA_STATUS_ERROR_INT != 0) = true := by
      have : st.statusSeq (s + 0) &&& RNGA_STATUS_ERROR_INT ≠ 0 := herr
      simpa using this
    simp [rngaDrain, hc, rngaErrEvs, List.range_succ]
  | succ k ih =>
    intro fuel s f hk hok herr
    obtain ⟨n, rfl⟩ : ∃ n, fuel = n + 1 := ⟨fuel - 1, by omega⟩
    have hc : (st.statusSeq s &&& RNGA_STATUS_ERROR_INT != 0) = false := by
      have := hok 0 (by omega)
      simpa using this
    have hok2 : ∀ j, j < k →
        st.statusSeq (s + 1 + j) &&& RNGA_STATUS_ERROR_INT = 0 := by
      intro j hj
      have := hok (j + 1) (by omega)
      rw [show s + 1 + j = s + (j + 1) by omega]
      exact this
    have herr2 : st.statusSeq (s + 1 + k) &&& RNGA_STATUS_ERROR_INT ≠ 0 := by
      rw [show s + 1 + k = s + (k + 1) by omega]
      exact herr
    rw [range_map_shift]
    simp only [rngaDrain, hc, Bool.false_eq_true, if_false,
      ih n (s + 1) (f + 1) (by omega) hok2 herr2, rngaErrEvs]

theorem rngaCleanEvs_count_fifo (st : RngaState) :
    ∀ n sIdx fIdx,
      (rngaCleanEvs st sIdx fIdx n).countP RngaEvent.isReadFifo = n := by
  intro n
  induction n with
  | zero => intro s f; simp [rngaCleanEvs]
  | succ m ih =>
    intro s f
    simp [rngaCleanEvs, List.countP_cons, RngaEvent.isReadFifo, ih (s + 1) (f + 1)]

theorem rngaCleanEvs_mem (st : RngaState) :
    ∀ n sIdx fIdx e, e ∈ rngaCleanEvs st sIdx fIdx n →
      (∃ v, e = RngaEvent.readFifo v) ∨ ∃ v, e = RngaEvent.readStatus v := by
  intro n
  induction n with
  | zero => intro s f e he; simp [rngaCleanEvs] at he
  | succ m ih =>
    intro s f e he
    simp only [rngaCleanEvs, List.mem_cons] at he
    rcases he with rfl | rfl | he
    · exact Or.inl ⟨_, rfl⟩
    · exact Or.inr ⟨_, rfl⟩
    · exact ih (s + 1) (f + 1) e he

theorem rngaErrEvs_count_fifo (st : RngaState) :
    ∀ k sIdx fIdx,
      (rngaErrEvs st sIdx fIdx k).countP RngaEvent.isReadFifo = k + 1 := by
  intro k
  induction k with
  | zero => intro s f; simp [rngaErrEvs, List.countP_cons, RngaEvent.isReadFifo]
  | succ m ih =>
    intro s f
    simp [rngaErrEvs, List.countP_cons, RngaEvent.isReadFifo, ih (s + 1) (f + 1)]

theorem rngaErrEvs_mem (st : RngaState) :
    ∀ k sIdx fIdx e, e ∈ rngaErrEvs st sIdx fIdx k →
      (∃ v, e = RngaEvent.readFifo v) ∨ ∃ v, e = RngaEvent.readStatus v := by
  intro k
  induction k with
  | zero =>
    intro s f e he
    simp only [rngaErrEvs, List.mem_cons, List.not_mem_nil, or_false] at he
    rcases he with rfl | rfl
    · exact Or.inl ⟨_, rfl⟩
    · exact Or.inr ⟨_, rfl⟩
  | succ m ih =>
    intro s f e he
    simp only [rngaErrEvs, List.mem_cons] at he
    rcases he with rfl | rfl | he
    · exact Or.inl ⟨_, rfl⟩
    · exact Or.inr ⟨_, rfl⟩
    · exact ih (s + 1) (f + 1) e he

/-! ## Evaluation equation for `mxc_rnga_read` -/

theorem rnga_read_eval (st : RngaState) (max : Nat) (wait : Bool) :
    mxc_rnga_read st max wait =
      if max < 4 then ⟨-22, [], []⟩
      else if (rngaPollAt st wait).present = 0 then
        ⟨0, [],
          RngaEvent.readStatus (st.statusSeq 0) :: (rngaPollAt st wait).evs⟩
      else if (rngaDrainAt st max wait).err then
        ⟨(((rngaDrainAt st max wait).k * 4 : Nat) : Int),
          (rngaDrainAt st max wait).writes,
          (RngaEvent.readStatus (st.statusSeq 0) :: (rngaPollAt st wait).evs) ++
            (rngaDrainAt st max wait).evs ++
            [RngaEvent.readControl st.ctrl,
             RngaEvent.writeControl (st.ctrl ||| RNGA_CONTROL_CLEAR_INT)]⟩
      else
        ⟨(((rngaDrainAt st max wait).k * 4 : Nat) : Int),
          (rngaDrainAt st max wait).writes,
          (RngaEvent.readStatus (st.statusSeq 0) :: (rngaPollAt st wait).evs) ++
            (rngaDrainAt st max wait).evs⟩ := rfl

/-! ## ath9k scan lemmas -/

theorem ath9k_pair_ok_iff (last v1 v2 : Nat) :
    ath9k_pair_ok last v1 v2 = true ↔
      (v1 ≠ 0 ∧ v2 ≠ 0 ∧ last ≠ v1 ∧ v1 ≠ v2 ∧ v1 ≠ 0xffff ∧ v2 ≠ 0xffff) := by
  simp [ath9k_pair_ok, Bool.and_eq_true, bne_iff_ne, ne_eq, and_assoc]

theorem ath9k_scan_len_le (adc : Nat → Nat) :
    ∀ m aIdx last, (ath9k_scan adc m aIdx last).ws.length ≤ m := by
  intro m
  induction m with
  | zero => intro a l; simp [ath9k_scan]
  | succ n ih =>
    intro a l
    have h := ih (a + 2) (adc (a + 1) &&& 0xffff)
    by_cases hc :
        ath9k_pair_ok l (adc a &&& 0xffff) (adc (a + 1) &&& 0xffff) = true
    · simp only [ath9k_scan, hc, if_true, List.length_cons]
      omega
    · simp only [ath9k_scan, hc, Bool.false_eq_true, if_false]
      omega

theorem ath9k_scan_last_succ (adc : Nat → Nat) (n aIdx last : Nat) :
    (ath9k_scan adc (n + 1) aIdx last).last =
      (ath9k_scan adc n (aIdx + 2) (adc (aIdx + 1) &&& 0xffff)).last := by
  simp only [ath9k_scan]
  split <;> rfl

theorem ath9k_scan_last (adc : Nat → Nat) :
    ∀ m aIdx last, 0 < m →
      (ath9k_scan adc m aIdx last).last = adc (aIdx + 2 * m - 1) &&& 0xffff := by
  intro m
  induction m with
  | zero => intro a l h; omega
  | succ n ih =>
    intro a l _
    rw [ath9k_scan_last_succ]
    cases n with
    | zero =>
      have h1 : a + 2 * 1 - 1 = a + 1 := by omega
      rw [h1]
      rfl
    | succ m' =>
      rw [ih (a + 2) (adc (a + 1) &&& 0xffff) (by omega)]
      have h1 : a + 2 + 2 * (m' + 1) - 1 = a + 2 * (m' + 1 + 1) - 1 := by omega
      rw [h1]

theorem athRetry_nowait (adc : Nat → Nat) (B : Nat) :
    ∀ r acc, athRetry adc B false r acc = acc := by
  intro r acc
  cases r <;> simp [athRetry]

theorem athRetry_ws_le (adc : Nat → Nat) (B : Nat) (wait : Bool) :
    ∀ r acc, acc.ws.length ≤ B →
      (athRetry adc B wait r acc).ws.length ≤ B := by
  intro r
  induction r with
  | zero => intro acc h; simpa [athRetry] using h
  | succ n ih =>
    intro acc h
    by_cases hc : (wait && acc.ws.isEmpty) = true
    · simp only [athRetry, hc, if_true]
      apply ih
      simpa [ath9k_rng_data_read] using
        ath9k_scan_len_le adc B acc.next acc.last
    · simp only [athRetry, hc, Bool.false_eq_true, if_false]
      exact h

theorem ath9kSpecAt_shift (adc : Nat → Nat) (aIdx last : Nat) (x : Nat) :
    ath9kSpecAt adc aIdx last (x + 1) =
      ath9kSpecAt adc (aIdx + 2) (adc (aIdx + 1) &&& 0xffff) x := by
  unfold ath9kSpecAt
  have h1 : aIdx + 2 * (x + 1) = aIdx + 2 + 2 * x := by omega
  rw [h1]
  cases x with
  | zero =>
    have h3 : aIdx + 2 + 2 * 0 - 1 = aIdx + 1 := by omega
    simp [h3]
  | succ y =>
    simp

theorem ath9kSpecAt_zero (adc : Nat → Nat) (aIdx last : Nat) :
    ath9kSpecAt adc aIdx last 0 =
      if ath9k_pair_ok last (adc aIdx &&& 0xffff) (adc (aIdx + 1) &&& 0xffff)
      then some ((adc aIdx &&& 0xffff) <<< 16 ||| (adc (aIdx + 1) &&& 0xffff))
      else none := by
  unfold ath9kSpecAt
  simp only [Nat.mul_zero, Nat.add_zero, if_pos rfl]
  exact if_congr (ath9k_pair_ok_iff last _ _).symm rfl rfl

theorem ath9kSpecWords_succ (adc : Nat → Nat) (aIdx last n : Nat) :
    ath9kSpecWords adc aIdx last (n + 1) =
      (if ath9k_pair_ok last (adc aIdx &&& 0xffff) (adc (aIdx + 1) &&& 0xffff)
       then [(adc aIdx &&& 0xffff) <<< 16 ||| (adc (aIdx + 1) &&& 0xffff)]
       else []) ++
      ath9kSpecWords adc (aIdx + 2) (adc (aIdx + 1) &&& 0xffff) n := by
  unfold ath9kSpecWords
  rw [List.range_succ_eq_map, List.filterMap_cons, List.filterMap_map]
  have hshift : (ath9kSpecAt adc aIdx last) ∘ Nat.succ =
      ath9kSpecAt adc (aIdx + 2) (adc (aIdx + 1) &&& 0xffff) :=
    funext fun x => ath9kSpecAt_shift adc aIdx last x
  rw [hshift, ath9kSpecAt_zero]
  by_cases hc :
      ath9k_pair_ok last (adc aIdx &&& 0xffff) (adc (aIdx + 1) &&& 0xffff) = true
  · simp [hc]
  · simp [hc]

theorem ath9k_scan_words (adc : Nat → Nat) :
    ∀ m aIdx last,
      (ath9k_scan adc m aIdx last).ws = ath9kSpecWords adc aIdx last m := by
  intro m
  induction m with
  | zero => intro a l; simp [ath9k_scan, ath9kSpecWords]
  | succ n ih =>
    intro a l
    rw [ath9kSpecWords_succ]
    by_cases hc : ath9k_pair_ok l (adc a &&& 0xffff) (adc (a + 1) &&& 0xffff) = true
    · simp only [ath9k_scan, hc, if_true, ih (a + 2) (adc (a + 1) &&& 0xffff)]
      simp
    · simp only [ath9k_scan, hc, Bool.false_eq_true, if_false,
        ih (a + 2) (adc (a + 1) &&& 0xffff)]
      simp

theorem ath_read_nowait (st : AthState) (max : Nat) (h : 4 ≤ max) :
    ath9k_rng_read st max false =
      ⟨(((ath9k_scan st.adc (max / 4) 0 st.rng_last).ws.length * 4 : Nat) : Int),
        (ath9k_scan st.adc (max / 4) 0 st.rng_last).ws,
        (ath9k_scan st.adc (max / 4) 0 st.rng_last).last,
        AthEvent.cfgWrite :: (ath9k_scan st.adc (max / 4) 0 st.rng_last).evs⟩ := by
  have hn : ¬max < 4 := by omega
  simp only [ath9k_rng_read, hn, if_false]
  rw [athRetry_nowait]
  rfl

theorem ath_read_shape (st : AthState) (max : Nat) (wait : Bool) :
    (ath9k_rng_read st max wait).ret = -22 ∨
      ∃ j, j ≤ max / 4 ∧
        (ath9k_rng_read st max wait).ret = ((j * 4 : Nat) : Int) ∧
        (ath9k_rng_read st max wait).outBuf.length = j := by
  by_cases h : max < 4
  · left
    simp [ath9k_rng_read, h]
  · right
    refine ⟨(athRetry st.adc (max / 4) wait 20
      (ath9k_rng_data_read st.adc 0 st.rng_last (max / 4))).ws.length, ?_, ?_, ?_⟩
    · apply athRetry_ws_le
      simpa [ath9k_rng_data_read] using
        ath9k_scan_len_le st.adc (max / 4) 0 st.rng_last
    · simp [ath9k_rng_read, h]
    · simp [ath9k_rng_read, h]

/-! ## Counting helpers -/

theorem count_zero_of_mem {α : Type} (l : List α) (p : α → Bool)
    (h : ∀ e ∈ l, p e = false) : l.countP p = 0 := by
  apply List.countP_eq_zero.mpr
  intro e he
  simp [h e he]

theorem txPoll_count_zero (seq : Nat → Nat) (wait : Bool) (r idx : Nat)
    (p : Bool) (q : TxEvent → Bool) (h1 : q TxEvent.delay = false)
    (h2 : ∀ v, q (TxEvent.readRCSR v) = false) :
    ((txPoll seq wait r idx p).evs.countP q) = 0 := by
  apply count_zero_of_mem
  intro e he
  rcases txPoll_evs_mem seq wait r idx p e he with rfl | ⟨v, rfl⟩
  · exact h1
  · exact h2 v

theorem rngaPoll_count_zero (seq : Nat → Nat) (wait : Bool) (r idx p : Nat)
    (q : RngaEvent → Bool) (h1 : q RngaEvent.delay = false)
    (h2 : ∀ v, q (RngaEvent.readStatus v) = false) :
    ((rngaPoll seq wait r idx p).evs.countP q) = 0 := by
  apply count_zero_of_mem
  intro e he
  rcases rngaPoll_evs_mem seq wait r idx p e he with rfl | ⟨v, rfl⟩
  · exact h1
  · exact h2 v

theorem rngaDrain_evs_mem (st : RngaState) :
    ∀ fuel sIdx fIdx e, e ∈ (rngaDrain st fuel sIdx fIdx).evs →
      (∃ v, e = RngaEvent.readFifo v) ∨ ∃ v, e = RngaEvent.readStatus v := by
  intro fuel
  induction fuel with
  | zero => intro s f e he; simp [rngaDrain] at he
  | succ n ih =>
    intro s f e he
    by_cases hc : (st.statusSeq s &&& RNGA_STATUS_ERROR_INT != 0) = true
    · simp only [rngaDrain, hc, if_true, List.mem_cons, List.not_mem_nil,
        or_false] at he
      rcases he with rfl | rfl
      · exact Or.inl ⟨_, rfl⟩
      · exact Or.inr ⟨_, rfl⟩
    · simp only [rngaDrain, hc, Bool.false_eq_true, if_false,
        List.mem_cons] at he
      rcases he with rfl | rfl | he
      · exact Or.inl ⟨_, rfl⟩
      · exact Or.inr ⟨_, rfl⟩
      · exact ih (s + 1) (f + 1) e he

theorem rngaDrain_count_zero (st : RngaState) (fuel sIdx fIdx : Nat)
    (q : RngaEvent → Bool) (h1 : ∀ v, q (RngaEvent.readFifo v) = false)
    (h2 : ∀ v, q (RngaEvent.readStatus v) = false) :
    ((rngaDrain st fuel sIdx fIdx).evs.countP q) = 0 := by
  apply count_zero_of_mem
  intro e he
  rcases rngaDrain_evs_mem st fuel sIdx fIdx e he with ⟨v, rfl⟩ | ⟨v, rfl⟩
  · exact h1 v
  · exact h2 v

theorem rngaErrEvs_count_zero (st : RngaState) (sIdx fIdx k : Nat)
    (q : RngaEvent → Bool) (h1 : ∀ v, q (RngaEvent.readFifo v) = false)
    (h2 : ∀ v, q (RngaEvent.readStatus v) = false) :
    ((rngaErrEvs st sIdx fIdx k).countP q) = 0 := by
  apply count_zero_of_mem
  intro e he
  rcases rngaErrEvs_mem st k sIdx fIdx e he with ⟨v, rfl⟩ | ⟨v, rfl⟩
  · exact h1 v
  · exact h2 v

theorem txRorEvs_count_zero (st : TxState) (n : Nat) (p : TxEvent → Bool)
    (hp : ∀ i v, p (TxEvent.readROR i v) = false) :
    (((List.range n).map (fun i => TxEvent.readROR i (st.ror i))).countP p)
      = 0 := by
  apply count_zero_of_mem
  intro e he
  simp only [List.mem_map, List.mem_range] at he
  obtain ⟨i, _, rfl⟩ := he
  exact hp i (st.ror i)

/-! ## Result-shape lemmas for the read entry points -/

theorem tx_read_shape (st : TxState) (sIdx max : Nat) (wait : Bool) :
    ((tx4939_rng_read_at st sIdx max wait).ret = -22 ∧
      (tx4939_rng_read_at st sIdx max wait).outBuf = []) ∨
      ∃ k, k ≤ max / 8 ∧
        (tx4939_rng_read_at st sIdx max wait).ret = ((k * 8 : Nat) : Int) ∧
        (tx4939_rng_read_at st sIdx max wait).outBuf.length = k := by
  rw [tx_read_at_eval]
  by_cases h : max < 8
  · left
    simp [h]
  · right
    by_cases hp : (txPollAt st wait sIdx).present = false
    · refine ⟨0, Nat.zero_le _, ?_, ?_⟩ <;> simp [h, hp]
    · refine ⟨min 3 (max / 8), Nat.min_le_right _ _, ?_, ?_⟩ <;> simp [h, hp]

theorem rnga_read_shape (st : RngaState) (max : Nat) (wait : Bool) :
    ((mxc_rnga_read st max wait).ret = -22 ∧
      (mxc_rnga_read st max wait).outBuf = []) ∨
      ∃ k, k ≤ max / 4 ∧
        (mxc_rnga_read st max wait).ret = ((k * 4 : Nat) : Int) := by
  rw [rnga_read_eval]
  by_cases h : max < 4
  · left
    simp [h]
  · right
    by_cases hp : (rngaPollAt st wait).present = 0
    · exact ⟨0, Nat.zero_le _, by simp [h, hp]⟩
    · have hk : (rngaDrainAt st max wait).k ≤ max / 4 := by
        have h1 := rngaDrain_k_le st
          (min ((rngaPollAt st wait).present >>> 8) (max / 4))
          (rngaPollAt st wait).next 0
        have h2 : min ((rngaPollAt st wait).present >>> 8) (max / 4) ≤ max / 4 :=
          Nat.min_le_right _ _
        exact le_trans h1 h2
      by_cases he : (rngaDrainAt st max wait).err
      · exact ⟨(rngaDrainAt st max wait).k, hk, by simp [h, hp, he]⟩
      · exact ⟨(rngaDrainAt st max wait).k, hk, by simp [h, hp, he]⟩

/-! ## Claim theorems -/

/-- C1: every non-error return of the three read entry points is an exact
multiple of the source's word size (8 bytes for TX4939, 4 for RNGA and the
ath9k noise source) and never exceeds the capacity rounded down to the
nearest word multiple. -/
theorem read_returns_whole_words :
    (∀ (st : TxState) (max : Nat) (wait : Bool),
      0 ≤ (tx4939_rng_read st max wait).ret →
        (tx4939_rng_read st max wait).ret % 8 = 0 ∧
        (tx4939_rng_read st max wait).ret ≤ ((max / 8 * 8 : Nat) : Int)) ∧
    (∀ (st : RngaState) (max : Nat) (wait : Bool),
      0 ≤ (mxc_rnga_read st max wait).ret →
        (mxc_rnga_read st max wait).ret % 4 = 0 ∧
        (mxc_rnga_read st max wait).ret ≤ ((max / 4 * 4 : Nat) : Int)) ∧
    (∀ (st : AthState) (max : Nat) (wait : Bool),
      0 ≤ (ath9k_rng_read st max wait).ret →
        (ath9k_rng_read st max wait).ret % 4 = 0 ∧
        (ath9k_rng_read st max wait).ret ≤ ((max / 4 * 4 : Nat) : Int)) := by
  refine ⟨?_, ?_, ?_⟩
  · intro st max wait hpos
    rcases tx_read_shape st 0 max wait with ⟨hr, _⟩ | ⟨k, hk, hret, _⟩
    · rw [show tx4939_rng_read st max wait = tx4939_rng_read_at st 0 max wait
        from rfl, hr] at hpos
      omega
    · rw [show tx4939_rng_read st max wait = tx4939_rng_read_at st 0 max wait
        from rfl, hret]
      constructor
      · omega
      · have h8 : k * 8 ≤ max / 8 * 8 := Nat.mul_le_mul_right 8 hk
        exact_mod_cast h8
  · intro st max wait hpos
    rcases rnga_read_shape st max wait with ⟨hr, _⟩ | ⟨k, hk, hret⟩
    · rw [hr] at hpos
      omega
    · rw [hret]
      constructor
      · omega
      · have : k * 4 ≤ max / 4 * 4 := Nat.mul_le_mul_right 4 hk
        exact_mod_cast this
  · intro st max wait hpos
    rcases ath_read_shape st max wait with hr | ⟨k, hk, hret, _⟩
    · rw [hr] at hpos
      omega
    · rw [hret]
      constructor
      · omega
      · have : k * 4 ≤ max / 4 * 4 := Nat.mul_le_mul_right 4 hk
        exact_mod_cast this

theorem read_returns_whole_words_witness :
    0 ≤ (tx4939_rng_read txReadyState 32 false).ret ∧
    (tx4939_rng_read txReadyState 32 false).ret % 8 = 0 ∧
    (tx4939_rng_read txReadyState 32 false).ret ≤ ((32 / 8 * 8 : Nat) : Int) :=
  ⟨by decide, read_returns_whole_words.1 txReadyState 32 false (by decide)⟩

/-- C5: a buffer smaller than one hardware word is rejected with -EINVAL and
no hardware register is accessed. -/
theorem small_buffer_rejected :
    (∀ (st : TxState) (max : Nat) (wait : Bool), max < 8 →
      (tx4939_rng_read st max wait).ret = -22 ∧
      (tx4939_rng_read st max wait).trace = []) ∧
    (∀ (st : RngaState) (max : Nat) (wait : Bool), max < 4 →
      (mxc_rnga_read st max wait).ret = -22 ∧
      (mxc_rnga_read st max wait).trace = []) ∧
    (∀ (st : AthState) (max : Nat) (wait : Bool), max < 4 →
      (ath9k_rng_read st max wait).ret = -22 ∧
      (ath9k_rng_read st max wait).trace = []) := by
  refine ⟨?_, ?_, ?_⟩ <;> intro st max wait h <;>
    simp [tx4939_rng_read, tx4939_rng_read_at, mxc_rnga_read, ath9k_rng_read, h]

theorem small_buffer_rejected_witness :
    (3 < 8 ∧ (tx4939_rng_read txReadyState 3 true).ret = -22 ∧
      (tx4939_rng_read txReadyState 3 true).trace = []) ∧
    (3 < 4 ∧ (mxc_rnga_read rngaLevel5State 3 true).ret = -22 ∧
      (mxc_rnga_read rngaLevel5State 3 true).trace = []) ∧
    (3 < 4 ∧ (ath9k_rng_read athZeroState 3 true).ret = -22 ∧
      (ath9k_rng_read athZeroState 3 true).trace = []) :=
  ⟨⟨by decide, small_buffer_rejected.1 txReadyState 3 true (by decide)⟩,
   ⟨by decide, small_buffer_rejected.2.1 rngaLevel5State 3 true (by decide)⟩,
   ⟨by decide, small_buffer_rejected.2.2 athZeroState 3 true (by decide)⟩⟩

/-- C6: with `wait = false` and the ready predicate false, the call returns
0 bytes as a success value after the single initial status read, without
invoking the retry delay. -/
theorem nowait_notready_zero :
    (∀ (st : TxState) (max : Nat), 8 ≤ max →
      txPresent (st.rcsrSeq 0) = false →
      (tx4939_rng_read st max false).ret = 0 ∧
      (tx4939_rng_read st max false).trace =
        [TxEvent.readRCSR (st.rcsrSeq 0)] ∧
      (tx4939_rng_read st max false).trace.countP TxEvent.isDelay = 0) ∧
    (∀ (st : RngaState) (max : Nat), 4 ≤ max →
      st.statusSeq 0 &&& RNGA_STATUS_LEVEL_MASK = 0 →
      (mxc_rnga_read st max false).ret = 0 ∧
      (mxc_rnga_read st max false).trace =
        [RngaEvent.readStatus (st.statusSeq 0)] ∧
      (mxc_rnga_read st max false).trace.countP RngaEvent.isDelay = 0) := by
  constructor
  · intro st max hmax hp
    have hn : ¬max < 8 := by omega
    have hpoll : txPollAt st false 0 = ⟨txPresent (st.rcsrSeq 0), 1, []⟩ :=
      txPoll_nowait _ _ _ _
    rw [show tx4939_rng_read st max false = tx4939_rng_read_at st 0 max false
      from rfl, tx_read_at_eval]
    simp [hn, hpoll, hp, TxEvent.isDelay]
  · intro st max hmax hp
    have hn : ¬max < 4 := by omega
    have hpoll : rngaPollAt st false =
        ⟨st.statusSeq 0 &&& RNGA_STATUS_LEVEL_MASK, 1, []⟩ :=
      rngaPoll_nowait _ _ _ _
    rw [rnga_read_eval]
    simp [hn, hpoll, hp, RngaEvent.isDelay]

theorem nowait_notready_zero_witness :
    (8 ≤ 32 ∧ txPresent (txStallState.rcsrSeq 0) = false ∧
      (tx4939_rng_read txStallState 32 false).ret = 0) ∧
    (4 ≤ 12 ∧ rngaStallState.statusSeq 0 &&& RNGA_STATUS_LEVEL_MASK = 0 ∧
      (mxc_rnga_read rngaStallState 12 false).ret = 0) :=
  ⟨⟨by decide, by decide,
    (nowait_notready_zero.1 txStallState 32 (by decide) (by decide)).1⟩,
   ⟨by decide, by decide,
    (nowait_notready_zero.2 rngaStallState 12 (by decide) (by decide)).1⟩⟩

/-- C8: the ath9k scan packs a sample pair (v1, v2) into the output word
`(v1 <<< 16) ||| v2` exactly when v1 and v2 are nonzero, not 0xffff,
mutually distinct, and v1 differs from the persisted previous raw sample;
`rng_last` becomes v2 after every pair; the full scan output equals the
spec-side filter with no other filtering. -/
theorem ath_pair_filter_exact :
    (∀ last v1 v2, ath9k_pair_ok last v1 v2 = true ↔
      (v1 ≠ 0 ∧ v2 ≠ 0 ∧ last ≠ v1 ∧ v1 ≠ v2 ∧
        v1 ≠ 0xffff ∧ v2 ≠ 0xffff)) ∧
    (∀ (adc : Nat → Nat) (m aIdx last : Nat),
      (ath9k_scan adc m aIdx last).ws = ath9kSpecWords adc aIdx last m) ∧
    (∀ (adc : Nat → Nat) (m aIdx last : Nat), 0 < m →
      (ath9k_scan adc m aIdx last).last = adc (aIdx + 2 * m - 1) &&& 0xffff) :=
  ⟨ath9k_pair_ok_iff, ath9k_scan_words, ath9k_scan_last⟩

theorem ath_pair_filter_exact_witness :
    0 < 2 ∧ (ath9k_scan athTwoPairState.adc 2 2 0).last =
      athTwoPairState.adc (2 + 2 * 2 - 1) &&& 0xffff :=
  ⟨by decide, ath_pair_filter_exact.2.2 athTwoPairState.adc 2 2 0 (by decide)⟩

/-- C3: with `wait = true` and the source never becoming ready, the ready
predicate is checked once initially and then at most 20 more times, each
re-check preceded by a delay, and the exhausted call returns 0 bytes; in
general no call ever performs more than 20 retry delays. -/
theorem wait_retry_budget :
    (∀ (st : TxState) (max : Nat), 8 ≤ max →
      (∀ j, txPresent (st.rcsrSeq j) = false) →
      (tx4939_rng_read st max true).ret = 0 ∧
      (tx4939_rng_read st max true).trace =
        TxEvent.readRCSR (st.rcsrSeq 0) :: txStallTrace st.rcsrSeq 1 20 ∧
      (tx4939_rng_read st max true).trace.countP TxEvent.isReadRCSR = 21 ∧
      (tx4939_rng_read st max true).trace.countP TxEvent.isDelay = 20) ∧
    (∀ (st : RngaState) (max : Nat), 4 ≤ max →
      (∀ j, st.statusSeq j &&& RNGA_STATUS_LEVEL_MASK = 0) →
      (mxc_rnga_read st max true).ret = 0 ∧
      (mxc_rnga_read st max true).trace =
        RngaEvent.readStatus (st.statusSeq 0) ::
          rngaStallTrace st.statusSeq 1 20 ∧
      (mxc_rnga_read st max true).trace.countP RngaEvent.isReadStatus = 21 ∧
      (mxc_rnga_read st max true).trace.countP RngaEvent.isDelay = 20) ∧
    (∀ (st : TxState) (max : Nat) (wait : Bool),
      (tx4939_rng_read st max wait).trace.countP TxEvent.isDelay ≤ 20) ∧
    (∀ (st : RngaState) (max : Nat) (wait : Bool),
      (mxc_rnga_read st max wait).trace.countP RngaEvent.isDelay ≤ 20) := by
  refine ⟨?_, ?_, ?_, ?_⟩
  · intro st max hmax hall
    have hn : ¬max < 8 := by omega
    have hpoll : txPollAt st true 0 =
        ⟨false, 21, txStallTrace st.rcsrSeq 1 20⟩ := by
      unfold txPollAt
      rw [Nat.zero_add, hall 0, txPoll_stall st.rcsrSeq hall 20 1]
    have hread : tx4939_rng_read st max true =
        ⟨0, 21, [],
          TxEvent.readRCSR (st.rcsrSeq 0) :: txStallTrace st.rcsrSeq 1 20⟩ := by
      rw [show tx4939_rng_read st max true = tx4939_rng_read_at st 0 max true
        from rfl, tx_read_at_eval, if_neg hn, hpoll]
      rfl
    rw [hread]
    refine ⟨rfl, rfl, ?_, ?_⟩ <;>
      simp [List.countP_cons, TxEvent.isReadRCSR, TxEvent.isDelay,
        txStallTrace_count_read, txStallTrace_count_delay]
  · intro st max hmax hall
    have hn : ¬max < 4 := by omega
    have hpoll : rngaPollAt st true =
        ⟨0, 21, rngaStallTrace st.statusSeq 1 20⟩ := by
      unfold rngaPollAt
      rw [hall 0, rngaPoll_stall st.statusSeq hall 20 1]
    have hread : mxc_rnga_read st max true =
        ⟨0, [],
          RngaEvent.readStatus (st.statusSeq 0) ::
            rngaStallTrace st.statusSeq 1 20⟩ := by
      rw [rnga_read_eval, if_neg hn, hpoll]
      rfl
    rw [hread]
    refine ⟨rfl, rfl, ?_, ?_⟩ <;>
      simp [List.countP_cons, RngaEvent.isReadStatus, RngaEvent.isDelay,
        rngaStallTrace_count_read, rngaStallTrace_count_delay]
  · intro st max wait
    rw [show tx4939_rng_read st max wait = tx4939_rng_read_at st 0 max wait
      from rfl, tx_read_at_eval]
    have hple : ((txPollAt st wait 0).evs.countP TxEvent.isDelay) ≤ 20 :=
      txPoll_delay_le st.rcsrSeq wait 20 (0 + 1) (txPresent (st.rcsrSeq 0))
    have hror := txRorEvs_count_zero st (min 3 (max / 8)) TxEvent.isDelay
      (fun i v => rfl)
    split
    · simp
    · split
      · simp only [List.countP_cons, TxEvent.isDelay]
        simp
        omega
      · simp only [List.countP_append, List.countP_cons, List.countP_nil,
          TxEvent.isDelay, hror]
        simp
        omega
  · intro st max wait
    rw [rnga_read_eval]
    have hple : ((rngaPollAt st wait).evs.countP RngaEvent.isDelay) ≤ 20 :=
      rngaPoll_delay_le st.statusSeq wait 20 1
        (st.statusSeq 0 &&& RNGA_STATUS_LEVEL_MASK)
    have hdr : ((rngaDrainAt st max wait).evs.countP RngaEvent.isDelay) = 0 :=
      rngaDrain_count_zero st
        (min ((rngaPollAt st wait).present >>> 8) (max / 4))
        (rngaPollAt st wait).next 0 RngaEvent.isDelay
        (fun v => rfl) (fun v => rfl)
    split
    · simp
    · split
      · simp only [List.countP_cons, RngaEvent.isDelay]
        simp
        omega
      · split
        · simp only [List.countP_append, List.countP_cons, List.countP_nil,
            RngaEvent.isDelay, hdr]
          simp
          omega
        · simp only [List.countP_append, List.countP_cons, List.countP_nil,
            RngaEvent.isDelay, hdr]
          simp
          omega

theorem wait_retry_budget_witness :
    8 ≤ 32 ∧ (∀ j, txPresent (txStallState.rcsrSeq j) = false) ∧
    (tx4939_rng_read txStallState 32 true).ret = 0 ∧
    (tx4939_rng_read txStallState 32 true).trace.countP TxEvent.isDelay = 20 :=
  ⟨by decide, fun j => by show txPresent 1 = false; decide,
    (wait_retry_budget.1 txStallState 32 (by decide)
      (fun j => by show txPresent 1 = false; decide)).1,
    (wait_retry_budget.1 txStallState 32 (by decide)
      (fun j => by show txPresent 1 = false; decide)).2.2.2⟩

/-- C2: once readiness is confirmed and no fault occurs, the drain reads
exactly `min(available, capacity / word_size)` words in index order and
returns that many words in bytes — available being the constant 3 for
TX4939 (followed by exactly one re-arm write of the start bit) and the
status level field for RNGA; concretely, a ready TX4939 with 32-byte
capacity returns 24 bytes and re-arms once, and an RNGA at level 5 with
12-byte capacity returns 12 bytes. -/
theorem drain_reads_min_available :
    (∀ (st : TxState) (max : Nat) (wait : Bool), 8 ≤ max →
      txFinalPresent st wait = true →
      (tx4939_rng_read st max wait).ret =
        ((min 3 (max / 8) * 8 : Nat) : Int) ∧
      (tx4939_rng_read st max wait).outBuf =
        (List.range (min 3 (max / 8))).map st.ror ∧
      (tx4939_rng_read st max wait).trace =
        (TxEvent.readRCSR (st.rcsrSeq 0) :: (txPollAt st wait 0).evs) ++
          (List.range (min 3 (max / 8))).map
            (fun i => TxEvent.readROR i (st.ror i)) ++
          [TxEvent.writeRCSR TX4939_RNG_RCSR_ST] ∧
      (tx4939_rng_read st max wait).trace.countP TxEvent.isWriteRCSR = 1) ∧
    (∀ (st : RngaState) (max : Nat) (wait : Bool), 4 ≤ max →
      (∀ j, st.statusSeq j &&& RNGA_STATUS_ERROR_INT = 0) →
      rngaFinalPresent st wait ≠ 0 →
      (mxc_rnga_read st max wait).ret =
        ((min (rngaFinalPresent st wait >>> 8) (max / 4) * 4 : Nat) : Int) ∧
      (mxc_rnga_read st max wait).outBuf =
        (List.range (min (rngaFinalPresent st wait >>> 8) (max / 4))).map
          st.fifoSeq ∧
      (mxc_rnga_read st max wait).trace.countP RngaEvent.isReadFifo =
        min (rngaFinalPresent st wait >>> 8) (max / 4)) ∧
    ((tx4939_rng_read txReadyState 32 true).ret = 24 ∧
      (tx4939_rng_read txReadyState 32 true).trace.countP
        TxEvent.isWriteRCSR = 1) ∧
    ((mxc_rnga_read rngaLevel5State 12 true).ret = 12) := by
  refine ⟨?_, ?_, ?_, ?_⟩
  · intro st max wait hmax hp
    have hn : ¬max < 8 := by omega
    have hp' : ¬(txPollAt st wait 0).present = false := by
      have : (txPollAt st wait 0).present = true := hp
      simp [this]
    rw [show tx4939_rng_read st max wait = tx4939_rng_read_at st 0 max wait
      from rfl, tx_read_at_eval]
    simp only [hn, if_false]
    rw [if_neg hp']
    refine ⟨rfl, rfl, rfl, ?_⟩
    have h1 : ((txPollAt st wait 0).evs.countP TxEvent.isWriteRCSR) = 0 :=
      txPoll_count_zero st.rcsrSeq wait 20 (0 + 1)
        (txPresent (st.rcsrSeq 0)) TxEvent.isWriteRCSR rfl (fun v => rfl)
    have h2 := txRorEvs_count_zero st (min 3 (max / 8)) TxEvent.isWriteRCSR
      (fun i v => rfl)
    simp only [List.countP_append, List.countP_cons, List.countP_nil, h1, h2,
      TxEvent.isWriteRCSR]
    simp
  · intro st max wait hmax hclean hp
    have hn : ¬max < 4 := by omega
    have hp' : ¬(rngaPollAt st wait).present = 0 := hp
    have hd : rngaDrainAt st max wait =
        ⟨min ((rngaPollAt st wait).present >>> 8) (max / 4),
          (List.range (min ((rngaPollAt st wait).present >>> 8) (max / 4))).map
            (fun t => st.fifoSeq (0 + t)),
          rngaCleanEvs st (rngaPollAt st wait).next 0
            (min ((rngaPollAt st wait).present >>> 8) (max / 4)), false⟩ :=
      rngaDrain_clean st hclean _ _ _
    have hmap : (List.range (min ((rngaPollAt st wait).present >>> 8)
        (max / 4))).map (fun t => st.fifoSeq (0 + t)) =
        (List.range (min ((rngaPollAt st wait).present >>> 8) (max / 4))).map
          st.fifoSeq := by
      apply List.map_congr_left
      intro a _
      rw [Nat.zero_add]
    rw [rnga_read_eval]
    simp only [hn, if_false]
    rw [if_neg hp']
    rw [show rngaFinalPresent st wait = (rngaPollAt st wait).present from rfl]
    rw [if_neg (by rw [hd]; exact Bool.false_ne_true)]
    rw [hd]
    refine ⟨rfl, hmap, ?_⟩
    have h1 : ((rngaPollAt st wait).evs.countP RngaEvent.isReadFifo) = 0 :=
      rngaPoll_count_zero st.statusSeq wait 20 1
        (st.statusSeq 0 &&& RNGA_STATUS_LEVEL_MASK) RngaEvent.isReadFifo
        rfl (fun v => rfl)
    have h2 := rngaCleanEvs_count_fifo st
      (min ((rngaPollAt st wait).present >>> 8) (max / 4))
      (rngaPollAt st wait).next 0
    simp only [List.countP_append, List.countP_cons, List.countP_nil, h1, h2,
      RngaEvent.isReadFifo]
    simp
  · constructor
    · exact (by decide :
        (tx4939_rng_read txReadyState 32 true).ret = 24)
    · decide
  · decide

theorem drain_reads_min_available_witness :
    8 ≤ 32 ∧ txFinalPresent txReadyState true = true ∧
    (tx4939_rng_read txReadyState 32 true).ret =
      ((min 3 (32 / 8) * 8 : Nat) : Int) :=
  ⟨by decide, by decide,
    (drain_reads_min_available.1 txReadyState 32 true (by decide)
      (by decide)).1⟩

/-- C4: if the RNGA drain observes the latched error-interrupt bit on the
status check after the word at index k of n planned words (k < n), the call
stops draining immediately (exactly k + 1 FIFO pops), performs the
clear-interrupt control write exactly once, and returns k * 4 bytes as a
non-error result. -/
theorem rnga_mid_drain_fault (st : RngaState) (max : Nat) (wait : Bool)
    (k : Nat) (hmax : 4 ≤ max) (hp : rngaFinalPresent st wait ≠ 0)
    (hk : k < min (rngaFinalPresent st wait >>> 8) (max / 4))
    (hok : ∀ j, j < k →
      st.statusSeq (rngaPollNext st wait + j) &&& RNGA_STATUS_ERROR_INT = 0)
    (herr : st.statusSeq (rngaPollNext st wait + k) &&&
      RNGA_STATUS_ERROR_INT ≠ 0) :
    (mxc_rnga_read st max wait).ret = ((k * 4 : Nat) : Int) ∧
    0 ≤ (mxc_rnga_read st max wait).ret ∧
    (mxc_rnga_read st max wait).trace.countP RngaEvent.isWriteControl = 1 ∧
    RngaEvent.writeControl (st.ctrl ||| RNGA_CONTROL_CLEAR_INT) ∈
      (mxc_rnga_read st max wait).trace ∧
    (mxc_rnga_read st max wait).trace.countP RngaEvent.isReadFifo = k + 1 := by
  have hn : ¬max < 4 := by omega
  have hp' : ¬(rngaPollAt st wait).present = 0 := hp
  have hd : rngaDrainAt st max wait =
      ⟨k, (List.range (k + 1)).map (fun t => st.fifoSeq (0 + t)),
        rngaErrEvs st (rngaPollAt st wait).next 0 k, true⟩ :=
    rngaDrain_err st k _ _ _ hk hok herr
  rw [rnga_read_eval, if_neg hn, if_neg hp', if_pos (by rw [hd]), hd]
  have h1 : ((rngaPollAt st wait).evs.countP RngaEvent.isWriteControl) = 0 :=
    rngaPoll_count_zero st.statusSeq wait 20 1
      (st.statusSeq 0 &&& RNGA_STATUS_LEVEL_MASK) RngaEvent.isWriteControl
      rfl (fun v => rfl)
  have h2 : ((rngaPollAt st wait).evs.countP RngaEvent.isReadFifo) = 0 :=
    rngaPoll_count_zero st.statusSeq wait 20 1
      (st.statusSeq 0 &&& RNGA_STATUS_LEVEL_MASK) RngaEvent.isReadFifo
      rfl (fun v => rfl)
  have h3 := rngaErrEvs_count_zero st (rngaPollAt st wait).next 0 k
    RngaEvent.isWriteControl (fun v => rfl) (fun v => rfl)
  have h4 := rngaErrEvs_count_fifo st k (rngaPollAt st wait).next 0
  refine ⟨rfl, by positivity, ?_, ?_, ?_⟩
  · simp only [List.countP_append, List.countP_cons, List.countP_nil, h1, h3,
      RngaEvent.isWriteControl]
    simp
  · simp
  · simp only [List.countP_append, List.countP_cons, List.countP_nil, h2, h4,
      RngaEvent.isReadFifo]
    simp

theorem rnga_mid_drain_fault_witness :
    (mxc_rnga_read rngaErrState 100 false).ret = ((1 * 4 : Nat) : Int) ∧
    (mxc_rnga_read rngaErrState 100 false).trace.countP
      RngaEvent.isWriteControl = 1 ∧
    (mxc_rnga_read rngaErrState 100 false).trace.countP
      RngaEvent.isReadFifo = 1 + 1 :=
  ⟨(rnga_mid_drain_fault rngaErrState 100 false 1 (by decide) (by decide)
      (by decide) (fun j hj => by
        have h : j = 0 := by omega
        subst h
        decide) (by decide)).1,
   (rnga_mid_drain_fault rngaErrState 100 false 1 (by decide) (by decide)
      (by decide) (fun j hj => by
        have h : j = 0 := by omega
        subst h
        decide) (by decide)).2.2.1,
   (rnga_mid_drain_fault rngaErrState 100 false 1 (by decide) (by decide)
      (by decide) (fun j hj => by
        have h : j = 0 := by omega
        subst h
        decide) (by decide)).2.2.2.2⟩

/-- C7: the ath9k read returns however many valid word-pairs the scan found
over `capacity / 4` scan steps and is not guaranteed to fill the request:
an oracle yielding 2 valid pairs among 10 scanned steps returns 8 bytes for
a 40-byte request, and with `wait = false` and no valid pair it returns 0
bytes immediately, with no retry delay. -/
theorem ath_best_effort_fill :
    (∀ (st : AthState) (max : Nat), 4 ≤ max →
      (ath9k_rng_read st max false).ret =
        (((ath9k_scan st.adc (max / 4) 0 st.rng_last).ws.length * 4 : Nat) :
          Int) ∧
      (ath9k_rng_read st max false).outBuf =
        (ath9k_scan st.adc (max / 4) 0 st.rng_last).ws ∧
      (ath9k_scan st.adc (max / 4) 0 st.rng_last).ws.length ≤ max / 4) ∧
    ((ath9k_rng_read athTwoPairState 40 false).ret = 8 ∧
      (ath9k_rng_read athTwoPairState 40 false).outBuf.length = 2 ∧
      40 / 4 = 10) ∧
    ((ath9k_rng_read athZeroState 40 false).ret = 0 ∧
      (ath9k_rng_read athZeroState 40 false).trace.countP
        AthEvent.isDelay = 0) := by
  refine ⟨?_, ?_, ?_⟩
  · intro st max h
    rw [ath_read_nowait st max h]
    exact ⟨rfl, rfl, ath9k_scan_len_le st.adc (max / 4) 0 st.rng_last⟩
  · exact ⟨by decide, by decide, by decide⟩
  · exact ⟨by decide, by decide⟩

theorem ath_best_effort_fill_witness :
    4 ≤ 40 ∧ (ath9k_rng_read athZeroState 40 false).ret =
      (((ath9k_scan athZeroState.adc (40 / 4) 0
        athZeroState.rng_last).ws.length * 4 : Nat) : Int) :=
  ⟨by decide, (ath_best_effort_fill.1 athZeroState 40 (by decide)).1⟩

/-- C9: the TX4939 probe issues the reset/start writes and then exactly two
blocking discard reads; if either discard read returns 0 bytes the probe
fails with -EIO and the source is not registered, otherwise it is
registered. -/
theorem tx_probe_two_discards (st : TxState) :
    ((tx4939_rng_read_at st 0 24 true).ret = 0 →
      (tx4939_rng_probe st).ret = -5 ∧
      (tx4939_rng_probe st).registered = false ∧
      (tx4939_rng_probe st).trace =
        [TxEvent.writeRCSR TX4939_RNG_RCSR_RST, TxEvent.writeRCSR 0,
          TxEvent.writeRCSR TX4939_RNG_RCSR_ST] ++
          (tx4939_rng_read_at st 0 24 true).trace) ∧
    ((tx4939_rng_read_at st 0 24 true).ret ≠ 0 →
      (tx4939_rng_read_at st (tx4939_rng_read_at st 0 24 true).next 24
        true).ret = 0 →
      (tx4939_rng_probe st).ret = -5 ∧
      (tx4939_rng_probe st).registered = false ∧
      (tx4939_rng_probe st).trace =
        [TxEvent.writeRCSR TX4939_RNG_RCSR_RST, TxEvent.writeRCSR 0,
          TxEvent.writeRCSR TX4939_RNG_RCSR_ST] ++
          (tx4939_rng_read_at st 0 24 true).trace ++
          (tx4939_rng_read_at st (tx4939_rng_read_at st 0 24 true).next 24
            true).trace) ∧
    ((tx4939_rng_read_at st 0 24 true).ret ≠ 0 →
      (tx4939_rng_read_at st (tx4939_rng_read_at st 0 24 true).next 24
        true).ret ≠ 0 →
      (tx4939_rng_probe st).ret = 0 ∧
      (tx4939_rng_probe st).registered = true ∧
      (tx4939_rng_probe st).trace =
        [TxEvent.writeRCSR TX4939_RNG_RCSR_RST, TxEvent.writeRCSR 0,
          TxEvent.writeRCSR TX4939_RNG_RCSR_ST] ++
          (tx4939_rng_read_at st 0 24 true).trace ++
          (tx4939_rng_read_at st (tx4939_rng_read_at st 0 24 true).next 24
            true).trace) := by
  refine ⟨?_, ?_, ?_⟩
  · intro h1
    simp [tx4939_rng_probe, h1]
  · intro h1 h2
    simp [tx4939_rng_probe, h1, h2]
  · intro h1 h2
    simp [tx4939_rng_probe, h1, h2]

theorem tx_probe_two_discards_witness :
    (tx4939_rng_read_at txStallState 0 24 true).ret = 0 ∧
    (tx4939_rng_probe txStallState).ret = -5 ∧
    (tx4939_rng_probe txStallState).registered = false :=
  ⟨by decide, ((tx_probe_two_discards txStallState).1 (by decide)).1,
    ((tx_probe_two_discards txStallState).1 (by decide)).2.1⟩

/-- C10: on the RNGA error path the output buffer holds one word beyond the
reported count (k + 1 words written, k * 4 bytes reported); on every
non-error path of all three drivers the buffer holds exactly the reported
number of words. -/
theorem buffer_write_extent :
    (∀ (st : RngaState) (max : Nat) (wait : Bool) (k : Nat), 4 ≤ max →
      rngaFinalPresent st wait ≠ 0 →
      k < min (rngaFinalPresent st wait >>> 8) (max / 4) →
      (∀ j, j < k → st.statusSeq (rngaPollNext st wait + j) &&&
        RNGA_STATUS_ERROR_INT = 0) →
      st.statusSeq (rngaPollNext st wait + k) &&& RNGA_STATUS_ERROR_INT ≠ 0 →
      (mxc_rnga_read st max wait).outBuf.length = k + 1 ∧
      (mxc_rnga_read st max wait).ret = ((k * 4 : Nat) : Int)) ∧
    (∀ (st : TxState) (max : Nat) (wait : Bool),
      ((tx4939_rng_read st max wait).ret = -22 ∧
        (tx4939_rng_read st max wait).outBuf = []) ∨
      (tx4939_rng_read st max wait).ret =
        (((tx4939_rng_read st max wait).outBuf.length * 8 : Nat) : Int)) ∧
    (∀ (st : RngaState) (max : Nat) (wait : Bool),
      (∀ j, st.statusSeq j &&& RNGA_STATUS_ERROR_INT = 0) →
      ((mxc_rnga_read st max wait).ret = -22 ∧
        (mxc_rnga_read st max wait).outBuf = []) ∨
      (mxc_rnga_read st max wait).ret =
        (((mxc_rnga_read st max wait).outBuf.length * 4 : Nat) : Int)) ∧
    (∀ (st : AthState) (max : Nat) (wait : Bool),
      ((ath9k_rng_read st max wait).ret = -22 ∧
        (ath9k_rng_read st max wait).outBuf = []) ∨
      (ath9k_rng_read st max wait).ret =
        (((ath9k_rng_read st max wait).outBuf.length * 4 : Nat) : Int)) := by
  refine ⟨?_, ?_, ?_, ?_⟩
  · intro st max wait k hmax hp hk hok herr
    have hn : ¬max < 4 := by omega
    have hp' : ¬(rngaPollAt st wait).present = 0 := hp
    have hd : rngaDrainAt st max wait =
        ⟨k, (List.range (k + 1)).map (fun t => st.fifoSeq (0 + t)),
          rngaErrEvs st (rngaPollAt st wait).next 0 k, true⟩ :=
      rngaDrain_err st k _ _ _ hk hok herr
    rw [rnga_read_eval, if_neg hn, if_neg hp', if_pos (by rw [hd]), hd]
    exact ⟨by simp, rfl⟩
  · intro st max wait
    rcases tx_read_shape st 0 max wait with ⟨hr, hb⟩ | ⟨m, _, hret, hlen⟩
    · left
      exact ⟨hr, hb⟩
    · right
      rw [show tx4939_rng_read st max wait = tx4939_rng_read_at st 0 max wait
        from rfl, hret, hlen]
  · intro st max wait hclean
    rw [rnga_read_eval]
    by_cases h : max < 4
    · left
      simp [h]
    · by_cases hp : (rngaPollAt st wait).present = 0
      · right
        simp [h, hp]
      · right
        have hd : rngaDrainAt st max wait =
            ⟨min ((rngaPollAt st wait).present >>> 8) (max / 4),
              (List.range (min ((rngaPollAt st wait).present >>> 8)
                (max / 4))).map (fun t => st.fifoSeq (0 + t)),
              rngaCleanEvs st (rngaPollAt st wait).next 0
                (min ((rngaPollAt st wait).present >>> 8) (max / 4)), false⟩ :=
          rngaDrain_clean st hclean _ _ _
        rw [if_neg h, if_neg hp, if_neg (by rw [hd]; exact Bool.false_ne_true),
          hd]
        simp
  · intro st max wait
    by_cases h : max < 4
    · left
      simp [ath9k_rng_read, h]
    · right
      simp [ath9k_rng_read, h]

theorem buffer_write_extent_witness :
    (mxc_rnga_read rngaErrState 100 false).outBuf.length = 1 + 1 ∧
    (mxc_rnga_read rngaErrState 100 false).ret = ((1 * 4 : Nat) : Int) :=
  buffer_write_extent.1 rngaErrState 100 false 1 (by decide) (by decide)
    (by decide) (fun j hj => by
      have h : j = 0 := by omega
      subst h
      decide) (by decide)

end HwRng
